import Mathlib

/-!
Verification development for the k8s-s3-mirror write-through S3 proxy.

The Go program (its core file holds `handleProxyRequest`, `extractBucketAndKey`,
`signRequestV4WithBucket`, `mirrorToBackupS3`, `handlePutRequest`,
`handleDeleteRequest`, `getOrCreateBucketDB`, `sanitizeDBName`,
`createCanonicalHeaders`, `createSignedHeaders`, `createCanonicalQueryString`,
`getSigningKey`, `hmacSHA256`) is embedded shallowly below.

Strings are modelled as `List Char` (Go string comparison is bytewise over
UTF-8, which coincides with codepoint-lexicographic order on `List Char`
because UTF-8 encoding is order preserving).  Byte sequences are `List Nat`
with values below 256.  The impure ingredients are made explicit parameters:
the wall clock of the signer becomes a `SignTime`, database and mirror call
outcomes become a `DBOracle`, and the side effects of the asynchronous
continuations are recorded as a trace of `Effect`s.
-/

abbrev Str : Type := List Char

/-- Go `strings.TrimPrefix(s, pre)`: drop `pre` when it is a prefix of `s`. -/
def trimPrefixGo (s pre : Str) : Str :=
  if pre.isPrefixOf s then s.drop pre.length else s

/-- Go `strings.TrimSuffix(s, suf)`: drop `suf` when it is a suffix of `s`. -/
def trimSuffixGo (s suf : Str) : Str :=
  if suf.isSuffixOf s then s.take (s.length - suf.length) else s

/-- Go `strings.ToLower` restricted to ASCII, which is all the header names
the program handles. -/
def lowerStr (s : Str) : Str := s.map Char.toLower

/-- Go `strings.TrimSpace` over ASCII whitespace. -/
def isSpaceGo (c : Char) : Bool :=
  c = ' ' || c = '\t' || c = '\n' || c = '\x0b' || c = '\x0c' || c = '\r'

def trimSpaceGo (s : Str) : Str :=
  ((s.dropWhile isSpaceGo).reverse.dropWhile isSpaceGo).reverse

/-- The port-stripping step of `extractBucketAndKey`:
`if colonIndex := strings.Index(host, ":"); colonIndex > 0 { host = host[:colonIndex] }`.
`List.findIdx` returns `length` when no colon occurs, and taking `length`
elements is the identity, matching the Go no-colon behaviour. -/
def stripPort (host : Str) : Str :=
  let colonIndex := host.findIdx (· = ':')
  if 0 < colonIndex then host.take colonIndex else host

/-- Go `strings.SplitN(s, "/", 2)` presented as the part before the first
slash and, when a slash occurs, the part after it. -/
def splitN2Slash : Str → Str × Option Str
  | [] => ([], none)
  | c :: rest =>
    if c = '/' then ([], some rest)
    else
      let p := splitN2Slash rest
      (c :: p.1, p.2)

/-- The path-style tail of `extractBucketAndKey`:
`parts := strings.SplitN(urlPath, "/", 2)` on the already-trimmed path, then
return `("", "")` when the first part is empty, `(parts[0], "")` when there is
no second part, else `(parts[0], parts[1])`. -/
def pathStyleParse (trimmedPath : Str) : Str × Str :=
  let p := splitN2Slash trimmedPath
  if p.1 = [] then ([], []) else (p.1, p.2.getD [])

/-- The addressing style, named after the comments in `extractBucketAndKey`. -/
inductive Style where
  | pathStyle : Style
  | virtualHosted : Style
deriving DecidableEq, Repr

/-- Function `extractBucketAndKey(urlPath, hostHeader string)` from the
source, together with the style of the branch that produced the result (the
branches are labelled path-style / virtual-hosted by the source comments).
The global `proxyDomain` is passed explicitly. -/
def extractBucketAndKeyStyle (proxyDomain urlPath hostHeader : Str) :
    Str × Str × Style :=
  let host := stripPort hostHeader
  if proxyDomain ≠ [] ∧ proxyDomain.isSuffixOf host then
    if host = proxyDomain then
      let p := pathStyleParse (trimPrefixGo urlPath ['/'])
      (p.1, p.2, Style.pathStyle)
    else
      let bucket := trimSuffixGo host ('.' :: proxyDomain)
      let key := trimPrefixGo urlPath ['/']
      (bucket, key, Style.virtualHosted)
  else
    let hostParts := host.splitOn '.'
    if 2 ≤ hostParts.length then
      let bucket := hostParts.getD 0 []
      let key := trimPrefixGo urlPath ['/']
      if bucket ≠ [] ∧ key ≠ [] then (bucket, key, Style.virtualHosted)
      else if bucket ≠ [] ∧ urlPath = ['/'] then (bucket, [], Style.virtualHosted)
      else
        let p := pathStyleParse (trimPrefixGo urlPath ['/'])
        (p.1, p.2, Style.pathStyle)
    else
      let p := pathStyleParse (trimPrefixGo urlPath ['/'])
      (p.1, p.2, Style.pathStyle)

/-- The pair actually returned by the Go function. -/
def extractBucketAndKey (proxyDomain urlPath hostHeader : Str) : Str × Str :=
  ((extractBucketAndKeyStyle proxyDomain urlPath hostHeader).1,
   (extractBucketAndKeyStyle proxyDomain urlPath hostHeader).2.1)

/-- The style re-derivation in `handleProxyRequest`:
`isVirtualHosted := bucket != "" && !strings.HasPrefix(req.URL.Path, "/"+bucket)`. -/
def dispatchIsVirtualHosted (bucket urlPath : Str) : Bool :=
  !bucket.isEmpty && !(('/' :: bucket).isPrefixOf urlPath)

/-- The forwarding `(Host, Path)` built by `handleProxyRequest`: the path is
the inbound path verbatim, the host is `bucket + "." + targetHost` when the
re-derived style is virtual-hosted, else the target host.  (The Go fallback
`targetURL.Hostname()` for an empty `targetURL.Host` is the identity there,
so the target host is a single parameter.) -/
def forwardHostPath (targetHost proxyDomain hostHeader urlPath : Str) : Str × Str :=
  let e := extractBucketAndKey proxyDomain urlPath hostHeader
  if dispatchIsVirtualHosted e.1 urlPath then
    (e.1 ++ '.' :: targetHost, urlPath)
  else
    (targetHost, urlPath)

/-- The mirror `(Host, Path)` built by `mirrorToBackupS3`: apply the optional
bucket name prepend, then either virtual-hosted (`mirrorBucket "." mirrorHost`
with `"/" + key`, or `"/"` for an empty key) or path-style
(`fmt.Sprintf("/%s/%s", mirrorBucket, key)` against the mirror host). -/
def mirrorHostPath (mirrorBucketPfx mirrorHost bucket key : Str)
    (isVirtualHosted : Bool) : Str × Str :=
  let mirrorBucket := if mirrorBucketPfx ≠ [] then mirrorBucketPfx ++ bucket else bucket
  if isVirtualHosted then
    (mirrorBucket ++ '.' :: mirrorHost, if key ≠ [] then '/' :: key else ['/'])
  else
    (mirrorHost, '/' :: mirrorBucket ++ '/' :: key)

/-! ### SHA-256, HMAC and hex, as used through crypto/sha256, crypto/hmac and
encoding/hex.  Words are `Nat` reduced mod `2 ^ 32`. -/

def w32 (x : Nat) : Nat := x % 4294967296

def rotr32 (n x : Nat) : Nat := w32 ((x >>> n) ||| (x <<< (32 - n)))

def ch32 (x y z : Nat) : Nat := (x &&& y) ^^^ ((x ^^^ 4294967295) &&& z)

def maj32 (x y z : Nat) : Nat := (x &&& y) ^^^ (x &&& z) ^^^ (y &&& z)

def bigSigma0 (x : Nat) : Nat := rotr32 2 x ^^^ rotr32 13 x ^^^ rotr32 22 x

def bigSigma1 (x : Nat) : Nat := rotr32 6 x ^^^ rotr32 11 x ^^^ rotr32 25 x

def smallSigma0 (x : Nat) : Nat := rotr32 7 x ^^^ rotr32 18 x ^^^ (x >>> 3)

def smallSigma1 (x : Nat) : Nat := rotr32 17 x ^^^ rotr32 19 x ^^^ (x >>> 10)

def sha256K : List Nat :=
  [1116352408, 1899447441, 3049323471, 3921009573, 961987163,
   1508970993, 2453635748, 2870763221, 3624381080, 310598401,
   607225278, 1426881987, 1925078388, 2162078206, 2614888103,
   3248222580, 3835390401, 4022224774, 264347078, 604807628,
   770255983, 1249150122, 1555081692, 1996064986, 2554220882,
   2821834349, 2952996808, 3210313671, 3336571891, 3584528711,
   113926993, 338241895, 666307205, 773529912, 1294757372,
   1396182291, 1695183700, 1986661051, 2177026350, 2456956037,
   2730485921, 2820302411, 3259730800, 3345764771, 3516065817,
   3600352804, 4094571909, 275423344, 430227734, 506948616,
   659060556, 883997877, 958139571, 1322822218, 1537002063,
   1747873779, 1955562222, 2024104815, 2227730452, 2361852424,
   2428436474, 2756734187, 3204031479, 3329325298]

def sha256H0 : List Nat :=
  [1779033703, 3144134277, 1013904242, 2773480762,
   1359893119, 2600822924, 528734635, 1541459225]

def be32 (n : Nat) : List Nat :=
  [(n >>> 24) % 256, (n >>> 16) % 256, (n >>> 8) % 256, n % 256]

def be64 (n : Nat) : List Nat :=
  [(n >>> 56) % 256, (n >>> 48) % 256, (n >>> 40) % 256, (n >>> 32) % 256,
   (n >>> 24) % 256, (n >>> 16) % 256, (n >>> 8) % 256, n % 256]

def sha256Pad (msg : List Nat) : List Nat :=
  let n := msg.length
  let zeros := (120 - ((n + 1) % 64)) % 64
  msg ++ 0x80 :: (List.replicate zeros 0 ++ be64 (8 * n))

def toBlocksAux : Nat → List Nat → List (List Nat)
  | _, [] => []
  | 0, _ => []
  | fuel + 1, c :: rest => ((c :: rest).take 64) :: toBlocksAux fuel ((c :: rest).drop 64)

/-- Split into 64-byte blocks (the fuel equals the length, which more than
covers the number of blocks). -/
def toBlocks (l : List Nat) : List (List Nat) := toBlocksAux l.length l

def blockWords : List Nat → List Nat
  | b0 :: b1 :: b2 :: b3 :: rest =>
    ((b0 <<< 24) ||| (b1 <<< 16) ||| (b2 <<< 8) ||| b3) :: blockWords rest
  | _ => []

def extendWords : Nat → List Nat → List Nat
  | 0, ws => ws
  | n + 1, ws =>
    let len := ws.length
    let w := w32 (smallSigma1 (ws.getD (len - 2) 0) + ws.getD (len - 7) 0 +
      smallSigma0 (ws.getD (len - 15) 0) + ws.getD (len - 16) 0)
    extendWords n (ws ++ [w])

def sha256Round (st : List Nat) (kw : Nat × Nat) : List Nat :=
  match st with
  | [a, b, c, d, e, f, g, h] =>
    let t1 := w32 (h + bigSigma1 e + ch32 e f g + kw.1 + kw.2)
    let t2 := w32 (bigSigma0 a + maj32 a b c)
    [w32 (t1 + t2), a, b, c, w32 (d + t1), e, f, g]
  | other => other

def sha256Compress (h : List Nat) (block : List Nat) : List Nat :=
  let ws := extendWords 48 (blockWords block)
  let final := (sha256K.zip ws).foldl sha256Round h
  List.zipWith (fun x y => w32 (x + y)) h final

/-- SHA-256 of a byte sequence, as `crypto/sha256.Sum256`. -/
def sha256Bytes (msg : List Nat) : List Nat :=
  ((toBlocks (sha256Pad msg)).foldl sha256Compress sha256H0).flatMap be32

def hexDigitsLower : Str := "0123456789abcdef".data

def hexByte (b : Nat) : Str :=
  [hexDigitsLower.getD (b / 16) '0', hexDigitsLower.getD (b % 16) '0']

/-- Go `encoding/hex.EncodeToString`. -/
def hexStr (bs : List Nat) : Str := bs.flatMap hexByte

/-- The value `hex.EncodeToString(sha256.Sum256(payload))` computed by the signer. -/
def sha256Hex (msg : List Nat) : Str := hexStr (sha256Bytes msg)

/-- UTF-8 encoding of a character, for `[]byte(s)` of a Go string. -/
def utf8Bytes (c : Char) : List Nat :=
  let n := c.toNat
  if n < 0x80 then [n]
  else if n < 0x800 then [0xC0 ||| (n >>> 6), 0x80 ||| (n &&& 0x3F)]
  else if n < 0x10000 then
    [0xE0 ||| (n >>> 12), 0x80 ||| ((n >>> 6) &&& 0x3F), 0x80 ||| (n &&& 0x3F)]
  else
    [0xF0 ||| (n >>> 18), 0x80 ||| ((n >>> 12) &&& 0x3F),
     0x80 ||| ((n >>> 6) &&& 0x3F), 0x80 ||| (n &&& 0x3F)]

def strBytes (s : Str) : List Nat := s.flatMap utf8Bytes

/-- Function `hmacSHA256(key, data []byte)` from the source (crypto/hmac with
SHA-256, block size 64). -/
def hmacSHA256 (key data : List Nat) : List Nat :=
  let k0 := if 64 < key.length then sha256Bytes key else key
  let kpad := k0 ++ List.replicate (64 - k0.length) 0
  sha256Bytes ((kpad.map (fun b => b ^^^ 0x5c)) ++
    sha256Bytes ((kpad.map (fun b => b ^^^ 0x36)) ++ data))

/-- Function `getSigningKey` from the source. -/
def getSigningKey (secretKey dateStamp region service : Str) : List Nat :=
  let kDate := hmacSHA256 (strBytes ("AWS4".data ++ secretKey)) (strBytes dateStamp)
  let kRegion := hmacSHA256 kDate (strBytes region)
  let kService := hmacSHA256 kRegion (strBytes service)
  hmacSHA256 kService (strBytes "aws4_request".data)

/-! ### Query-string canonicalisation -/

/-- The unreserved set of Go `net/url` query escaping (and of the AWS SigV4
unreserved-set rules): letters, digits, `-`, `_`, `.`, `~`. -/
def isUnreservedGo (c : Char) : Bool :=
  ('A' ≤ c && c ≤ 'Z') || ('a' ≤ c && c ≤ 'z') || ('0' ≤ c && c ≤ '9') ||
    c = '-' || c = '_' || c = '.' || c = '~'

def hexDigitsUpper : Str := "0123456789ABCDEF".data

def pctByte (b : Nat) : Str :=
  '%' :: [hexDigitsUpper.getD (b / 16) '0', hexDigitsUpper.getD (b % 16) '0']

/-- Go `url.QueryEscape`: unreserved characters kept, space becomes `+`,
every other byte becomes `%XX`. -/
def queryEscape (s : Str) : Str :=
  s.flatMap (fun c =>
    if isUnreservedGo c then [c]
    else if c = ' ' then ['+']
    else (utf8Bytes c).flatMap pctByte)

/-- The AWS SigV4 URI escape the spec describes: unreserved characters kept,
every other byte (space included, as `%20`) becomes `%XX`. -/
def awsUriEncode (s : Str) : Str :=
  s.flatMap (fun c =>
    if isUnreservedGo c then [c]
    else (utf8Bytes c).flatMap pctByte)

/-- Go `sort.Strings` (ascending bytewise lexicographic order).  The Go sort
is not stable, but equal strings are indistinguishable, so any correct sort
denotes the same list. -/
def sortStrs (l : List Str) : List Str := List.insertionSort (· ≤ ·) l

/-- Function `createCanonicalQueryString` from the source, over the parsed query
`req.URL.Query()` (a map from parameter name to its values). -/
def createCanonicalQueryString (values : List (Str × List Str)) : Str :=
  if values.isEmpty then []
  else
    let keys := sortStrs (values.map Prod.fst)
    let parts := keys.flatMap (fun k =>
      let paramValues := sortStrs ((List.lookup k values).getD [])
      paramValues.map (fun v =>
        if v = [] then queryEscape k ++ ['=']
        else queryEscape k ++ '=' :: queryEscape v))
    List.intercalate "&".data parts

/-- Lexicographic order on (name, value) pairs, for the spec-side canonical
query string: by name first, then by value. -/
def pairLe (p q : Str × Str) : Prop :=
  p.1 < q.1 ∨ (p.1 = q.1 ∧ p.2 ≤ q.2)

instance : DecidableRel pairLe := fun p q => by unfold pairLe; infer_instance

/-- The canonical query string as §4.2 of the spec words it, parameterised by
the escape function: all (name, value) pairs sorted by name in byte order with
values sorted within a repeated name, each side escaped, `name=` for empty
values (escaping the empty value adds nothing). -/
def specCanonicalQueryString (escape : Str → Str) (values : List (Str × List Str)) : Str :=
  let pairs := values.flatMap (fun kv => kv.2.map (fun v => (kv.1, v)))
  List.intercalate "&".data
    ((List.insertionSort pairLe pairs).map (fun p => escape p.1 ++ '=' :: escape p.2))

/-! ### Requests and the SigV4 signer -/

/-- An outbound HTTP request as the program assembles it: `host` mirrors
`req.Host`, `urlHost` mirrors `req.URL.Host` (`http.NewRequest` sets both from
the URL), headers are an association list of canonical-form names to values,
and `body` is the buffered byte sequence handed to `bytes.NewReader`. -/
structure HttpRequest where
  method : Str
  host : Str
  urlHost : Str
  path : Str
  query : List (Str × List Str)
  headers : List (Str × Str)
  body : List Nat
deriving DecidableEq

/-- Go `http.Header.Set`: replace every binding of `name`, then bind it to `v`. -/
def setAssoc (hs : List (Str × Str)) (name v : Str) : List (Str × Str) :=
  hs.filter (fun p => p.1 != name) ++ [(name, v)]

def setHeader (req : HttpRequest) (name v : Str) : HttpRequest :=
  { req with headers := setAssoc req.headers name v }

/-- The header filter shared by `createCanonicalHeaders` and
`createSignedHeaders`: lowercased name equal to `host` or `content-type`, or
starting with `x-amz-`. -/
def canonicalHeaderKeep (lk : Str) : Bool :=
  lk = "host".data || "x-amz-".data.isPrefixOf lk || lk = "content-type".data

/-- The `headerMap["host"]` value: `req.Host`, falling back to `req.URL.Host`. -/
def hostHeaderValue (req : HttpRequest) : Str :=
  if req.host ≠ [] then req.host else req.urlHost

/-- The `headerMap` of `createCanonicalHeaders`: the kept headers keyed by
lowercased name with trimmed values, then `host` bound to `hostHeaderValue`. -/
def canonicalHeaderMap (req : HttpRequest) : List (Str × Str) :=
  let filtered := req.headers.filterMap (fun p =>
    let lk := lowerStr p.1
    if canonicalHeaderKeep lk then some (lk, trimSpaceGo p.2) else none)
  setAssoc (filtered.foldl (fun acc p => setAssoc acc p.1 p.2) []) "host".data
    (hostHeaderValue req)

/-- Function `createCanonicalHeaders` from the source: sorted `name:value` lines joined
by and terminated with a newline. -/
def createCanonicalHeaders (req : HttpRequest) : Str :=
  let m := canonicalHeaderMap req
  let keys := sortStrs (m.map Prod.fst)
  List.intercalate "\n".data
    (keys.map (fun k => k ++ ':' :: ((List.lookup k m).getD []))) ++ "\n".data

/-- The sorted name list of `createSignedHeaders`: lowercased kept header
names with `"host"` appended before sorting. -/
def signedHeadersList (req : HttpRequest) : List Str :=
  sortStrs ((req.headers.filterMap (fun p =>
    let lk := lowerStr p.1
    if canonicalHeaderKeep lk then some lk else none)) ++ ["host".data])

/-- Function `createSignedHeaders` from the source. -/
def createSignedHeaders (req : HttpRequest) : Str :=
  List.intercalate ";".data (signedHeadersList req)

/-- The signing credentials and fixed region/service of the signer. -/
structure SignConfig where
  accessKey : Str
  secretKey : Str
  region : Str
  service : Str
deriving DecidableEq

/-- The two formats of `time.Now().UTC()` the signer computes. -/
structure SignTime where
  dateStamp : Str
  amzDate : Str
deriving DecidableEq

/-- The first two header writes of `signRequestV4WithBucket`:
`X-Amz-Date` and `X-Amz-Content-Sha256`. -/
def signerIntermediate (req : HttpRequest) (ts : SignTime) (payload : List Nat) :
    HttpRequest :=
  setHeader (setHeader req "X-Amz-Date".data ts.amzDate)
    "X-Amz-Content-Sha256".data (sha256Hex payload)

/-- The `canonicalURI`: the request path, `"/"` when empty. -/
def canonicalURI (req : HttpRequest) : Str :=
  if req.path = [] then "/".data else req.path

/-- The canonical request assembled by `signRequestV4WithBucket`
(`fmt.Sprintf("%s\n%s\n%s\n%s\n%s\n%s", ...)`). -/
def canonicalRequestFor (req₁ : HttpRequest) (payload : List Nat) : Str :=
  req₁.method ++ '\n' :: canonicalURI req₁ ++ '\n' ::
    createCanonicalQueryString req₁.query ++ '\n' ::
    createCanonicalHeaders req₁ ++ '\n' ::
    createSignedHeaders req₁ ++ '\n' :: sha256Hex payload

def credentialScope (ts : SignTime) (cfg : SignConfig) : Str :=
  ts.dateStamp ++ '/' :: cfg.region ++ '/' :: cfg.service ++ "/aws4_request".data

def stringToSign (ts : SignTime) (cfg : SignConfig) (canonicalRequest : Str) : Str :=
  "AWS4-HMAC-SHA256".data ++ '\n' :: ts.amzDate ++ '\n' ::
    credentialScope ts cfg ++ '\n' :: hexStr (sha256Bytes (strBytes canonicalRequest))

/-- Function `signRequestV4WithBucket` from the source.  The `bucket` and
`isVirtualHosted` arguments are, as in the source, only used for logging. -/
def signRequestV4WithBucket (cfg : SignConfig) (ts : SignTime) (req : HttpRequest)
    (payload : List Nat) (bucket : Str) (isVirtualHosted : Bool) : HttpRequest :=
  let _ := bucket
  let _ := isVirtualHosted
  let req₁ := signerIntermediate req ts payload
  let canonicalRequest := canonicalRequestFor req₁ payload
  let sts := stringToSign ts cfg canonicalRequest
  let signingKey := getSigningKey cfg.secretKey ts.dateStamp cfg.region cfg.service
  let signature := hmacSHA256 signingKey (strBytes sts)
  let authorizationHeader :=
    "AWS4-HMAC-SHA256 Credential=".data ++ cfg.accessKey ++ '/' ::
      credentialScope ts cfg ++ ", SignedHeaders=".data ++
      createSignedHeaders req₁ ++ ", Signature=".data ++ hexStr signature
  setHeader req₁ "Authorization".data authorizationHeader

/-- The inbound-header filter of `handleProxyRequest` and `mirrorToBackupS3`:
keep names starting with `Content-` or `X-Amz-`. -/
def forwardHeaderKeep (k : Str) : Bool :=
  "Content-".data.isPrefixOf k || "X-Amz-".data.isPrefixOf k

/-- The forwarding request of `handleProxyRequest` before signing. -/
def buildForwardRequest (targetHost proxyDomain method hostHeader urlPath : Str)
    (query : List (Str × List Str)) (inHeaders : List (Str × Str))
    (bodyBytes : List Nat) : HttpRequest :=
  let f := forwardHostPath targetHost proxyDomain hostHeader urlPath
  { method := method, host := f.1, urlHost := f.1, path := f.2, query := query,
    headers := inHeaders.filter (fun p => forwardHeaderKeep p.1), body := bodyBytes }

/-- The signed forwarding request of `handleProxyRequest`. -/
def forwardRequestSigned (cfg : SignConfig) (ts : SignTime)
    (targetHost proxyDomain method hostHeader urlPath : Str)
    (query : List (Str × List Str)) (inHeaders : List (Str × Str))
    (bodyBytes : List Nat) : HttpRequest :=
  let e := extractBucketAndKey proxyDomain urlPath hostHeader
  signRequestV4WithBucket cfg ts
    (buildForwardRequest targetHost proxyDomain method hostHeader urlPath query
      inHeaders bodyBytes)
    bodyBytes e.1 (dispatchIsVirtualHosted e.1 urlPath)

/-- The mirror request of `mirrorToBackupS3` before signing. -/
def buildMirrorRequest (mirrorBucketPfx mirrorHost bucket key method : Str)
    (body : List Nat) (headers : List (Str × Str)) (isVirtualHosted : Bool) :
    HttpRequest :=
  let hp := mirrorHostPath mirrorBucketPfx mirrorHost bucket key isVirtualHosted
  { method := method, host := hp.1, urlHost := hp.1, path := hp.2, query := [],
    headers := headers.filter (fun p => forwardHeaderKeep p.1), body := body }

/-- The signed mirror request of `mirrorToBackupS3`. -/
def mirrorRequestSigned (cfg : SignConfig) (ts : SignTime)
    (mirrorBucketPfx mirrorHost bucket key method : Str) (body : List Nat)
    (headers : List (Str × Str)) (isVirtualHosted : Bool) : HttpRequest :=
  let mirrorBucket := if mirrorBucketPfx ≠ [] then mirrorBucketPfx ++ bucket else bucket
  signRequestV4WithBucket cfg ts
    (buildMirrorRequest mirrorBucketPfx mirrorHost bucket key method body headers
      isVirtualHosted)
    body mirrorBucket isVirtualHosted

/-! ### Bucket-name sanitisation -/

/-- The character class `[a-zA-Z0-9]` of `sanitizeDBName`. -/
def isAlnumGo (c : Char) : Bool :=
  ('a' ≤ c && c ≤ 'z') || ('A' ≤ c && c ≤ 'Z') || ('0' ≤ c && c ≤ '9')

/-- State machine for `ReplaceAllString` of `[^a-zA-Z0-9]+` by `_`: `inRun`
records whether the previous character belonged to a non-alphanumeric run, so
each maximal run emits exactly one underscore, at its start. -/
def collapseRunsAux (inRun : Bool) : Str → Str
  | [] => []
  | c :: rest =>
    if isAlnumGo c then c :: collapseRunsAux false rest
    else if inRun then collapseRunsAux true rest
    else '_' :: collapseRunsAux true rest

/-- Go `regexp.MustCompile("[^a-zA-Z0-9]+").ReplaceAllString(name, "_")`: every
maximal run of non-alphanumeric characters becomes a single underscore. -/
def replaceNonAlnumRuns (s : Str) : Str := collapseRunsAux false s

/-- Function `sanitizeDBName` from the source. -/
def sanitizeDBName (name : Str) : Str :=
  "bucket_".data ++ replaceNonAlnumRuns name

/-- The decomposition of a string into maximal runs of characters agreeing on
`isAlnumGo`, for the spec-side statement of sanitisation. -/
def alnumRuns : Str → List Str
  | [] => []
  | c :: rest =>
    (c :: rest.takeWhile (fun d => isAlnumGo d == isAlnumGo c)) ::
      alnumRuns (rest.dropWhile (fun d => isAlnumGo d == isAlnumGo c))
termination_by l => l.length
decreasing_by
  simp only [List.length_cons]
  have h := (List.dropWhile_sublist (l := rest)
    (fun d => isAlnumGo d == isAlnumGo c)).length_le
  omega

/-- The table name as §8.9 of the spec words it: each maximal non-alphanumeric
run replaced by one underscore, alphanumeric runs kept, prefixed `bucket_`. -/
def specTableName (b : Str) : Str :=
  "bucket_".data ++ (alnumRuns b).flatMap (fun run =>
    match run with
    | [] => []
    | d :: _ => if isAlnumGo d then run else ['_'])

/-! ### The spec-side addressing classification (§4.1) -/

/-- The four-step classification of §4.1 as the spec states it (the claim
under test): exact proxy-domain match, then `"." + proxy_domain` suffix, then
two-label hosts, then path-style. -/
def specClassify (proxyDomain urlPath hostHeader : Str) : Str × Str × Style :=
  let host := stripPort hostHeader
  if proxyDomain ≠ [] ∧ host = proxyDomain then
    let p := pathStyleParse (trimPrefixGo urlPath ['/'])
    (p.1, p.2, Style.pathStyle)
  else if proxyDomain ≠ [] ∧ ('.' :: proxyDomain).isSuffixOf host then
    (trimSuffixGo host ('.' :: proxyDomain), trimPrefixGo urlPath ['/'],
      Style.virtualHosted)
  else if 2 ≤ (host.splitOn '.').length then
    ((host.splitOn '.').getD 0 [], trimPrefixGo urlPath ['/'], Style.virtualHosted)
  else
    let p := pathStyleParse (trimPrefixGo urlPath ['/'])
    (p.1, p.2, Style.pathStyle)

/-- The classification of §4.1 amended to what the code checks: step 2 fires
when the host merely ends with `proxy_domain` (differing from it), removing a
`"." + proxy_domain` suffix only when present; step 3 additionally requires a
non-empty first label and a non-empty key (or the path `"/"`), else falling
through to path-style. -/
def specClassifyAmended (proxyDomain urlPath hostHeader : Str) : Str × Str × Style :=
  let host := stripPort hostHeader
  if proxyDomain ≠ [] ∧ host = proxyDomain then
    let p := pathStyleParse (trimPrefixGo urlPath ['/'])
    (p.1, p.2, Style.pathStyle)
  else if proxyDomain ≠ [] ∧ proxyDomain.isSuffixOf host then
    (trimSuffixGo host ('.' :: proxyDomain), trimPrefixGo urlPath ['/'],
      Style.virtualHosted)
  else
    let bucket := (host.splitOn '.').getD 0 []
    let key := trimPrefixGo urlPath ['/']
    if 2 ≤ (host.splitOn '.').length ∧ bucket ≠ [] ∧ (key ≠ [] ∨ urlPath = ['/']) then
      (bucket, key, Style.virtualHosted)
    else
      let p := pathStyleParse (trimPrefixGo urlPath ['/'])
      (p.1, p.2, Style.pathStyle)

/-! ### The asynchronous continuations as effect traces -/

/-- One observable effect of the program: opening the database pool in `main`,
the DDL of `getOrCreateBucketDB`, the three inventory statements, or the call
into `mirrorToBackupS3`.  Database actions carry the outcome their `Exec`
returned. -/
inductive Effect where
  | openDB : Effect
  | createTable (table : Str) (ok : Bool) : Effect
  | upsertRecord (table key : Str) (ok : Bool) : Effect
  | markBackedUp (table key : Str) (ok : Bool) : Effect
  | markDeleted (table key : Str) (ok : Bool) : Effect
  | mirror (bucket key method : Str) (body : List Nat) : Effect
deriving DecidableEq

/-- Outcomes of the external calls an asynchronous continuation makes. -/
structure DBOracle where
  createOk : Bool
  upsertOk : Bool
  deleteOk : Bool
  markOk : Bool
  mirrorOk : Bool
deriving DecidableEq

def isMirrorAction : Effect → Bool
  | .mirror _ _ _ _ => true
  | _ => false

def isDBAction : Effect → Bool
  | .mirror _ _ _ _ => false
  | _ => true

/-- Function `main`: the only place a database connection is opened, and only when the
database is enabled. -/
def mainStartup (disableDatabase : Bool) : List Effect :=
  if disableDatabase then [] else [Effect.openDB]

/-- Function `getOrCreateBucketDB` as (trace, got-a-handle): `nil` when disabled, the
memoised handle when the bucket is cached, else one `CREATE TABLE` attempt
whose outcome decides the handle.  (The index DDL does not affect the handle
and is elided.) -/
def getOrCreateBucketDBTrace (disableDatabase cached : Bool) (o : DBOracle)
    (bucket : Str) : List Effect × Bool :=
  if disableDatabase then ([], false)
  else if cached then ([], true)
  else ([Effect.createTable (sanitizeDBName bucket) o.createOk], o.createOk)

/-- Function `handlePutRequest` from the source: mirror only when disabled; otherwise
bail out without a handle, upsert (returning early on failure), mirror, and
mark backed up only on mirror success. -/
def handlePutRequest (disableDatabase cached : Bool) (o : DBOracle)
    (bucket key method : Str) (body : List Nat) : List Effect :=
  if disableDatabase then [Effect.mirror bucket key method body]
  else
    let g := getOrCreateBucketDBTrace false cached o bucket
    if !g.2 then g.1
    else
      g.1 ++ Effect.upsertRecord (sanitizeDBName bucket) key o.upsertOk ::
        (if !o.upsertOk then []
         else Effect.mirror bucket key method body ::
           (if o.mirrorOk then
             [Effect.markBackedUp (sanitizeDBName bucket) key o.markOk]
            else []))

/-- Function `handleDeleteRequest` from the source: mirror only when disabled;
otherwise bail out without a handle, soft-delete (returning early on
failure), then mirror the delete with a nil body. -/
def handleDeleteRequest (disableDatabase cached : Bool) (o : DBOracle)
    (bucket key : Str) : List Effect :=
  if disableDatabase then [Effect.mirror bucket key "DELETE".data []]
  else
    let g := getOrCreateBucketDBTrace false cached o bucket
    if !g.2 then g.1
    else
      g.1 ++ Effect.markDeleted (sanitizeDBName bucket) key o.deleteOk ::
        (if !o.deleteOk then []
         else [Effect.mirror bucket key "DELETE".data []])

/-- The asynchronous spawn of `handleProxyRequest`: only on a 2xx status with
non-empty bucket and key, and only for PUT/POST (with the buffered body) or
DELETE. -/
def handleProxyAsync (disableDatabase cached : Bool) (o : DBOracle) (method : Str)
    (statusCode : Nat) (bucket key : Str) (body : List Nat) : List Effect :=
  if 200 ≤ statusCode ∧ statusCode < 300 ∧ bucket ≠ [] ∧ key ≠ [] then
    if method = "PUT".data ∨ method = "POST".data then
      handlePutRequest disableDatabase cached o bucket key method body
    else if method = "DELETE".data then
      handleDeleteRequest disableDatabase cached o bucket key
    else []
  else []

/-- The `is_backed_up` column of the row for the traced key, folded over the
successful database actions of a trace; `none` is an absent row, and the
`UPDATE ... SET is_backed_up = true` of a missing row is a no-op. -/
def rowBackedUpAfter (init : Option Bool) (tr : List Effect) : Option Bool :=
  tr.foldl (fun s a =>
    match a with
    | .upsertRecord _ _ true => some false
    | .markBackedUp _ _ true => if s.isSome then some true else s
    | _ => s) init

/-- The final newline-separated line of a string. -/
def lastLine (s : Str) : Str := (s.reverse.takeWhile (fun c => c != '\n')).reverse

instance : IsTotal (Str × Str) pairLe := by
  constructor
  intro a b
  rcases lt_trichotomy a.1 b.1 with h | h | h
  · exact Or.inl (Or.inl h)
  · rcases le_total a.2 b.2 with h2 | h2
    · exact Or.inl (Or.inr ⟨h, h2⟩)
    · exact Or.inr (Or.inr ⟨h.symm, h2⟩)
  · exact Or.inr (Or.inl h)

instance : IsTrans (Str × Str) pairLe := by
  constructor
  rintro a b c (h1 | ⟨e1, l1⟩) (h2 | ⟨e2, l2⟩)
  · exact Or.inl (h1.trans h2)
  · exact Or.inl (e2 ▸ h1)
  · exact Or.inl (e1 ▸ h2)
  · exact Or.inr ⟨e1.trans e2, l1.trans l2⟩

instance : IsAntisymm (Str × Str) pairLe := by
  constructor
  rintro ⟨a1, a2⟩ ⟨b1, b2⟩ (h1 | ⟨e1, l1⟩) (h2 | ⟨e2, l2⟩)
  · exact absurd (h1.trans h2) (lt_irrefl _)
  · exact absurd h1 (e2 ▸ lt_irrefl _)
  · exact absurd h2 (e1 ▸ lt_irrefl _)
  · simp only [Prod.mk.injEq]
    exact ⟨e1, le_antisymm l1 l2⟩

/-! ### The claims of the spec, stated as the spec states them -/

/-- Claim C1 as stated (spec §8.2 style preservation) at one input: the
forwarding host and path agree with the parsed classification. -/
def c1StyleClaim (targetHost proxyDomain hostHeader urlPath : Str) : Prop :=
  let e := extractBucketAndKeyStyle proxyDomain urlPath hostHeader
  let f := forwardHostPath targetHost proxyDomain hostHeader urlPath
  (e.2.2 = Style.virtualHosted → f.1 = e.1 ++ '.' :: targetHost ∧ f.2 = urlPath) ∧
  (e.2.2 = Style.pathStyle → f.1 = targetHost ∧ ('/' :: e.1).isPrefixOf f.2)

/-! ## Helper lemmas -/

theorem sign_preserves_body (cfg : SignConfig) (ts : SignTime) (req : HttpRequest)
    (payload : List Nat) (bucket : Str) (vh : Bool) :
    (signRequestV4WithBucket cfg ts req payload bucket vh).body = req.body := rfl

theorem sign_preserves_host (cfg : SignConfig) (ts : SignTime) (req : HttpRequest)
    (payload : List Nat) (bucket : Str) (vh : Bool) :
    (signRequestV4WithBucket cfg ts req payload bucket vh).host = req.host := rfl

theorem sign_preserves_path (cfg : SignConfig) (ts : SignTime) (req : HttpRequest)
    (payload : List Nat) (bucket : Str) (vh : Bool) :
    (signRequestV4WithBucket cfg ts req payload bucket vh).path = req.path := rfl

theorem lookup_setAssoc_self (hs : List (Str × Str)) (name v : Str) :
    List.lookup name (setAssoc hs name v) = some v := by
  induction hs with
  | nil => simp [setAssoc, List.lookup]
  | cons p t ih =>
    by_cases h : p.1 = name
    · simpa [setAssoc, List.filter, h] using ih
    · have hb : (p.1 != name) = true := by simpa using h
      have hb2 : (name == p.1) = false := by
        simpa using fun e => h e.symm
      simpa [setAssoc, List.filter, hb, List.lookup, hb2] using ih

theorem lookup_setAssoc_ne (hs : List (Str × Str)) (name v n : Str) (h : n ≠ name) :
    List.lookup n (setAssoc hs name v) = List.lookup n hs := by
  have hnn : (n == name) = false := by simpa using h
  induction hs with
  | nil => simp [setAssoc, List.lookup, hnn]
  | cons p t ih =>
    obtain ⟨a, b⟩ := p
    by_cases hp : a = name
    · subst hp
      simp only [setAssoc, List.filter] at ih ⊢
      simp only [bne_self_eq_false]
      rw [List.lookup, hnn]
      exact ih
    · have hb : (a != name) = true := by simpa using hp
      by_cases hnp : n = a
      · subst hnp
        simp [setAssoc, List.filter, hb, List.lookup]
      · have hna : (n == a) = false := by simpa using hnp
        simp only [setAssoc, List.filter, hb] at ih ⊢
        rw [List.cons_append, List.lookup, hna, List.lookup, hna]
        exact ih

theorem sign_lookup_sha (cfg : SignConfig) (ts : SignTime) (req : HttpRequest)
    (payload : List Nat) (bucket : Str) (vh : Bool) :
    List.lookup "X-Amz-Content-Sha256".data
      (signRequestV4WithBucket cfg ts req payload bucket vh).headers =
      some (sha256Hex payload) := by
  show List.lookup "X-Amz-Content-Sha256".data
    (setAssoc (setAssoc (setAssoc req.headers "X-Amz-Date".data ts.amzDate)
      "X-Amz-Content-Sha256".data (sha256Hex payload)) "Authorization".data _) = _
  rw [lookup_setAssoc_ne _ _ _ _ (by decide), lookup_setAssoc_self]

theorem sha256Hex_nil :
    sha256Hex [] =
      "e3b0c44298fc1c149afbf4c8996fb92427ae41e4649b934ca495991b7852b855".data := by
  decide

/-! ## Claim theorems -/

/-- C7: every mirror write addresses the bucket `mirror_bucket_prefix + bucket`
(the identity when the prefix is empty) and preserves the original style:
virtual-hosted requests go to host `mirror_bucket + "." + mirror_host` with
path `"/" + key` (or `"/"` when the key is empty), path-style requests go to
the mirror host with path `"/" + mirror_bucket + "/" + key`; the signed mirror
request carries exactly that host and path. -/
theorem claim_C7_mirror_addressing (cfg : SignConfig) (ts : SignTime)
    (mbp mh b k method : Str) (body : List Nat) (hdrs : List (Str × Str))
    (vh : Bool) :
    mirrorHostPath mbp mh b k true =
      (mbp ++ b ++ '.' :: mh, if k = [] then "/".data else '/' :: k) ∧
    mirrorHostPath mbp mh b k false = (mh, '/' :: (mbp ++ b) ++ '/' :: k) ∧
    (mirrorRequestSigned cfg ts mbp mh b k method body hdrs vh).host =
      (mirrorHostPath mbp mh b k vh).1 ∧
    (mirrorRequestSigned cfg ts mbp mh b k method body hdrs vh).path =
      (mirrorHostPath mbp mh b k vh).2 := by
  refine ⟨?_, ?_, rfl, rfl⟩
  · simp only [mirrorHostPath]
    cases mbp <;> cases k <;> simp
  · simp only [mirrorHostPath]
    cases mbp <;> simp

/-- C3 counterexample: with the database enabled, the bucket table already
verified and the upsert failing, `handlePutRequest` performs the failed upsert
and returns without attempting the mirror write, contradicting the claim that
the mirror step is still attempted when `record_put` fails. -/
theorem claim_C3_counterexample :
    handlePutRequest false true ⟨true, false, true, true, true⟩ "b".data "k".data
      "PUT".data [] = [Effect.upsertRecord "bucket_b".data "k".data false] ∧
    (handlePutRequest false true ⟨true, false, true, true, true⟩ "b".data "k".data
      "PUT".data []).any isMirrorAction = false := by
  decide

/-- C3 amended: when the inventory upsert fails (or the bucket table cannot be
obtained) `handlePutRequest` returns early and the mirror write is NOT
attempted: the mirror is attempted exactly when inventory is disabled, or the
table handle is available and the upsert succeeds.  When the upsert succeeds
and the mirror then fails, the row is left with `is_backed_up = false`. -/
theorem claim_C3_amended (disabled cached : Bool) (o : DBOracle)
    (b k method : Str) (body : List Nat) (init : Option Bool) :
    ((handlePutRequest disabled cached o b k method body).any isMirrorAction =
      (disabled || ((cached || o.createOk) && o.upsertOk))) ∧
    (disabled = false → (cached || o.createOk) = true → o.upsertOk = true →
      o.mirrorOk = false →
      rowBackedUpAfter init (handlePutRequest disabled cached o b k method body) =
        some false) := by
  obtain ⟨co, uo, dlo, mo, miro⟩ := o
  cases disabled <;> cases cached <;> cases co <;> cases uo <;> cases miro <;>
    simp [handlePutRequest, getOrCreateBucketDBTrace, rowBackedUpAfter,
      isMirrorAction]

theorem claim_C3_amended_witness :
    rowBackedUpAfter none
      (handlePutRequest false true ⟨true, true, true, true, false⟩ "b".data
        "k".data "PUT".data []) = some false :=
  (claim_C3_amended false true ⟨true, true, true, true, false⟩ "b".data "k".data
    "PUT".data [] none).2 rfl rfl rfl rfl

/-- C8: with inventory disabled, no database connection is opened at startup,
`getOrCreateBucketDB` yields no handle and no database effect, and the
asynchronous continuation of every 2xx mutating response with non-empty bucket
and key consists exactly of the mirror write (with the buffered body for
PUT/POST and a nil body for DELETE) and no database effect. -/
theorem claim_C8_disabled_inventory (cached : Bool) (o : DBOracle) (method : Str)
    (status : Nat) (b k : Str) (body : List Nat) (h200 : 200 ≤ status)
    (h300 : status < 300) (hb : b ≠ []) (hk : k ≠ [])
    (hm : method = "PUT".data ∨ method = "POST".data ∨ method = "DELETE".data) :
    mainStartup true = [] ∧
    (∀ b', getOrCreateBucketDBTrace true cached o b' = ([], false)) ∧
    handleProxyAsync true cached o method status b k body =
      [Effect.mirror b k method (if method = "DELETE".data then [] else body)] ∧
    (handleProxyAsync true cached o method status b k body).filter isDBAction = [] := by
  have hcond : 200 ≤ status ∧ status < 300 ∧ b ≠ [] ∧ k ≠ [] := ⟨h200, h300, hb, hk⟩
  refine ⟨rfl, fun b' => rfl, ?_, ?_⟩ <;>
  · rcases hm with hm | hm | hm <;> subst hm <;>
      simp [handleProxyAsync, if_pos hcond, handlePutRequest, handleDeleteRequest,
        isDBAction]

theorem claim_C8_witness :
    handleProxyAsync true false ⟨true, true, true, true, true⟩ "PUT".data 200
      "b".data "k".data [7] =
      [Effect.mirror "b".data "k".data "PUT".data [7]] := by
  have h := claim_C8_disabled_inventory false ⟨true, true, true, true, true⟩
    "PUT".data 200 "b".data "k".data [7] (by decide) (by decide) (by decide)
    (by decide) (Or.inl rfl)
  simpa using h.2.2.1

/-- C10: the DELETE continuation issues its mirror write with a nil body no
matter what body bytes the inbound DELETE carried (the dispatcher does not
even pass them to `handleDeleteRequest`), and the mirror request signed for an
empty body carries `X-Amz-Content-Sha256` equal to the SHA-256 of the empty
string. -/
theorem claim_C10_delete_empty_body (disabled cached : Bool) (o : DBOracle)
    (b k : Str) (status : Nat) (body : List Nat) (cfg : SignConfig)
    (ts : SignTime) (mbp mh : Str) (hdrs : List (Str × Str)) (vh : Bool) :
    ((handleDeleteRequest disabled cached o b k).all (fun a =>
      match a with
      | Effect.mirror _ _ _ bd => bd.isEmpty
      | _ => true) = true) ∧
    handleProxyAsync disabled cached o "DELETE".data status b k body =
      handleProxyAsync disabled cached o "DELETE".data status b k [] ∧
    (mirrorRequestSigned cfg ts mbp mh b k "DELETE".data [] hdrs vh).body = [] ∧
    List.lookup "X-Amz-Content-Sha256".data
      (mirrorRequestSigned cfg ts mbp mh b k "DELETE".data [] hdrs vh).headers =
      some "e3b0c44298fc1c149afbf4c8996fb92427ae41e4649b934ca495991b7852b855".data := by
  refine ⟨?_, ?_, rfl, ?_⟩
  · obtain ⟨co, uo, dlo, mo, miro⟩ := o
    cases disabled <;> cases cached <;> cases co <;> cases dlo <;>
      simp [handleDeleteRequest, getOrCreateBucketDBTrace]
  · simp only [handleProxyAsync]
    split_ifs <;>
      first
        | rfl
        | exact absurd
            (by assumption : "DELETE".data = "PUT".data ∨ "DELETE".data = "POST".data)
            (by decide)
  · rw [mirrorRequestSigned, sign_lookup_sha, sha256Hex_nil]

theorem collapseRunsAux_true_eq (l : Str) :
    collapseRunsAux true l =
      collapseRunsAux false (l.dropWhile (fun d => !isAlnumGo d)) := by
  induction l with
  | nil => rfl
  | cons d r ih =>
    by_cases hd : isAlnumGo d
    · simp [collapseRunsAux, hd, List.dropWhile_cons]
    · simp only [collapseRunsAux, hd, if_false, List.dropWhile_cons]
      simpa [hd] using ih

theorem runsFlat_take_drop (l : Str) :
    (alnumRuns l).flatMap (fun run =>
        match run with
        | [] => []
        | d :: _ => if isAlnumGo d then run else ['_']) =
      l.takeWhile isAlnumGo ++ (alnumRuns (l.dropWhile isAlnumGo)).flatMap (fun run =>
        match run with
        | [] => []
        | d :: _ => if isAlnumGo d then run else ['_']) := by
  cases l with
  | nil => simp [alnumRuns]
  | cons d r =>
    by_cases hd : isAlnumGo d
    · rw [alnumRuns]
      have hp : (fun e => isAlnumGo e == isAlnumGo d) = fun e => isAlnumGo e := by
        funext e
        rw [hd]
        cases isAlnumGo e <;> rfl
      rw [hp]
      simp [List.takeWhile_cons, List.dropWhile_cons, hd]
    · simp [List.takeWhile_cons, List.dropWhile_cons, hd]

theorem collapse_eq_runsFlat : ∀ (n : Nat) (l : Str), l.length ≤ n →
    collapseRunsAux false l = (alnumRuns l).flatMap (fun run =>
      match run with
      | [] => []
      | d :: _ => if isAlnumGo d then run else ['_']) := by
  intro n
  induction n with
  | zero =>
    intro l hl
    have : l = [] := by cases l <;> simp_all
    subst this
    simp [alnumRuns, collapseRunsAux]
  | succ n ih =>
    intro l hl
    cases l with
    | nil => simp [alnumRuns, collapseRunsAux]
    | cons c rest =>
      by_cases hc : isAlnumGo c
      · have h1 := ih rest (by simpa using Nat.le_of_succ_le_succ hl)
        rw [alnumRuns]
        have hp : (fun e => isAlnumGo e == isAlnumGo c) = fun e => isAlnumGo e := by
          funext e
          rw [hc]
          cases isAlnumGo e <;> rfl
        rw [hp]
        simp only [collapseRunsAux, hc, if_true, List.flatMap_cons]
        rw [h1, runsFlat_take_drop rest]
        simp [hc]
      · have hlen : (rest.dropWhile (fun d => !isAlnumGo d)).length ≤ n := by
          have h2 := (List.dropWhile_sublist (l := rest) (fun d => !isAlnumGo d)).length_le
          simp only [List.length_cons] at hl
          omega
        have h1 := ih (rest.dropWhile (fun d => !isAlnumGo d)) hlen
        rw [alnumRuns]
        have hp : (fun e => isAlnumGo e == isAlnumGo c) = fun e => !isAlnumGo e := by
          funext e
          rw [Bool.eq_false_iff.mpr hc]
          cases isAlnumGo e <;> rfl
        rw [hp]
        simp only [collapseRunsAux, hc, if_false, List.flatMap_cons]
        rw [collapseRunsAux_true_eq, h1]
        simp [hc]

/-- C9: for every bucket name `b`, the derived inventory table name equals
`"bucket_"` followed by `b` with every maximal run of characters outside
`[a-zA-Z0-9]` replaced by a single underscore; in particular `"my-data"` maps
to `"bucket_my_data"`. -/
theorem claim_C9_sanitization :
    (∀ b : Str, sanitizeDBName b = specTableName b) ∧
    sanitizeDBName "my-data".data = "bucket_my_data".data := by
  constructor
  · intro b
    unfold sanitizeDBName specTableName replaceNonAlnumRuns
    rw [collapse_eq_runsFlat b.length b (le_refl _)]
  · decide

theorem takeWhile_append_all {p : Char → Bool} (l₁ l₂ : Str)
    (h : ∀ c ∈ l₁, p c = true) :
    (l₁ ++ l₂).takeWhile p = l₁ ++ l₂.takeWhile p := by
  induction l₁ with
  | nil => simp
  | cons a t ih =>
    simp only [List.cons_append, List.takeWhile_cons, h a (by simp)]
    rw [ih (fun c hc => h c (by simp [hc]))]
    simp

theorem getD_hexLower_ne_newline (i : Nat) : hexDigitsLower.getD i '0' ≠ '\n' := by
  by_cases h : i < 16
  · interval_cases i <;> decide
  · have hlen : hexDigitsLower.length ≤ i := by
      have : hexDigitsLower.length = 16 := by decide
      omega
    rw [List.getD_eq_default _ _ hlen]
    decide

theorem newline_not_mem_hexStr (bs : List Nat) : ∀ c ∈ hexStr bs, c ≠ '\n' := by
  intro c hc
  rw [hexStr, List.mem_flatMap] at hc
  obtain ⟨b, _, hcb⟩ := hc
  simp only [hexByte, List.mem_cons, List.mem_singleton] at hcb
  rcases hcb with h | h | h
  · exact h ▸ getD_hexLower_ne_newline _
  · exact h ▸ getD_hexLower_ne_newline _
  · exact absurd h (by simp)

theorem lastLine_append (p h : Str) (hh : ∀ c ∈ h, c ≠ '\n') :
    lastLine (p ++ '\n' :: h) = h := by
  unfold lastLine
  rw [List.reverse_append, List.reverse_cons, List.append_assoc]
  rw [takeWhile_append_all h.reverse (['\n'] ++ p.reverse) (by
    intro c hc
    have := hh c (by simpa using hc)
    simpa using this)]
  simp

/-- C5: on every signed outbound request the `X-Amz-Content-Sha256` header set
by the signer equals the lowercase hex SHA-256 of the payload bytes (which are
exactly the body bytes of the forward and mirror requests), for the empty body
it is the SHA-256 of the empty string, and the same hash is the final line of
the canonical request. -/
theorem claim_C5_payload_hash (cfg : SignConfig) (ts : SignTime)
    (req : HttpRequest) (payload : List Nat) (bucket : Str) (vh : Bool)
    (targetHost proxyDomain method hostHeader urlPath : Str)
    (query : List (Str × List Str)) (inHeaders : List (Str × Str))
    (mbp mh b k mmethod : Str) (mbody : List Nat) (mhdrs : List (Str × Str))
    (mvh : Bool) :
    List.lookup "X-Amz-Content-Sha256".data
        (signRequestV4WithBucket cfg ts req payload bucket vh).headers =
      some (sha256Hex payload) ∧
    lastLine (canonicalRequestFor (signerIntermediate req ts payload) payload) =
      sha256Hex payload ∧
    sha256Hex [] =
      "e3b0c44298fc1c149afbf4c8996fb92427ae41e4649b934ca495991b7852b855".data ∧
    ((forwardRequestSigned cfg ts targetHost proxyDomain method hostHeader urlPath
        query inHeaders payload).body = payload ∧
      List.lookup "X-Amz-Content-Sha256".data
          (forwardRequestSigned cfg ts targetHost proxyDomain method hostHeader
            urlPath query inHeaders payload).headers = some (sha256Hex payload)) ∧
    ((mirrorRequestSigned cfg ts mbp mh b k mmethod mbody mhdrs mvh).body = mbody ∧
      List.lookup "X-Amz-Content-Sha256".data
          (mirrorRequestSigned cfg ts mbp mh b k mmethod mbody mhdrs mvh).headers =
        some (sha256Hex mbody)) := by
  refine ⟨sign_lookup_sha cfg ts req payload bucket vh, ?_, sha256Hex_nil,
    ⟨rfl, ?_⟩, ⟨rfl, ?_⟩⟩
  · have hshape : canonicalRequestFor (signerIntermediate req ts payload) payload =
        (signerIntermediate req ts payload).method ++ '\n' ::
          (canonicalURI (signerIntermediate req ts payload) ++ '\n' ::
            (createCanonicalQueryString (signerIntermediate req ts payload).query ++ '\n' ::
              (createCanonicalHeaders (signerIntermediate req ts payload) ++ '\n' ::
                createSignedHeaders (signerIntermediate req ts payload)))) ++
          '\n' :: sha256Hex payload := by
      simp [canonicalRequestFor]
    have hnl : ∀ c ∈ sha256Hex payload, c ≠ '\n' := by
      simpa [sha256Hex] using newline_not_mem_hexStr (sha256Bytes payload)
    rw [hshape, lastLine_append _ _ hnl]
  · simp only [forwardRequestSigned]
    exact sign_lookup_sha _ _ _ _ _ _
  · simp only [mirrorRequestSigned]
    exact sign_lookup_sha _ _ _ _ _ _

theorem sign_headers_superset (cfg : SignConfig) (ts : SignTime)
    (req : HttpRequest) (payload : List Nat) (bucket : Str) (vh : Bool)
    (p : Str × Str) (hp : p ∈ (signerIntermediate req ts payload).headers)
    (hne : p.1 ≠ "Authorization".data) :
    p ∈ (signRequestV4WithBucket cfg ts req payload bucket vh).headers := by
  simp only [signRequestV4WithBucket, setHeader, setAssoc]
  exact List.mem_append_left _ (List.mem_filter.mpr ⟨hp, by simpa using hne⟩)

/-- C6: every header name listed in the SignedHeaders component that the
signer embeds in `Authorization` is present (by lowercased name) on the signed
outbound request, where the `host` name is carried by `req.Host`, and `host`
is always among the listed names. -/
theorem claim_C6_signed_headers_closure (cfg : SignConfig) (ts : SignTime)
    (req : HttpRequest) (payload : List Nat) (bucket : Str) (vh : Bool) :
    "host".data ∈ signedHeadersList (signerIntermediate req ts payload) ∧
    ∀ n ∈ signedHeadersList (signerIntermediate req ts payload),
      n = "host".data ∨
        n ∈ (signRequestV4WithBucket cfg ts req payload bucket vh).headers.map
          (fun p => lowerStr p.1) := by
  constructor
  · unfold signedHeadersList sortStrs
    rw [(List.perm_insertionSort _ _).mem_iff]
    simp
  · intro n hn
    unfold signedHeadersList sortStrs at hn
    rw [(List.perm_insertionSort _ _).mem_iff, List.mem_append] at hn
    rcases hn with hn | hn
    · rw [List.mem_filterMap] at hn
      obtain ⟨p, hp, hf⟩ := hn
      by_cases hkeep : canonicalHeaderKeep (lowerStr p.1)
      · rw [if_pos hkeep] at hf
        obtain rfl : lowerStr p.1 = n := by simpa using hf
        have hne : p.1 ≠ "Authorization".data := by
          intro he
          rw [he] at hkeep
          exact absurd hkeep (by decide)
        exact Or.inr (List.mem_map.mpr
          ⟨p, sign_headers_superset cfg ts req payload bucket vh p hp hne, rfl⟩)
      · rw [if_neg hkeep] at hf
        exact absurd hf (by simp)
    · exact Or.inl (by simpa using hn)

theorem claim_C6_witness :
    "host".data = "host".data ∨
      "host".data ∈ (signRequestV4WithBucket ⟨[], [], [], []⟩ ⟨[], []⟩
        ⟨[], [], [], [], [], [], []⟩ [] [] false).headers.map
          (fun p => lowerStr p.1) :=
  (claim_C6_signed_headers_closure ⟨[], [], [], []⟩ ⟨[], []⟩
    ⟨[], [], [], [], [], [], []⟩ [] [] false).2 "host".data (by decide)

theorem splitN2Slash_recover (p : Str) :
    (splitN2Slash p).1 ++ (match (splitN2Slash p).2 with
      | some r => '/' :: r
      | none => []) = p := by
  induction p with
  | nil => rfl
  | cons c rest ih =>
    by_cases hc : c = '/'
    · subst hc
      simp [splitN2Slash]
    · simpa [splitN2Slash, hc] using ih

theorem pathStyleParse_isPrefix (p : Str) :
    ((pathStyleParse p).1).isPrefixOf p = true := by
  unfold pathStyleParse
  by_cases h1 : (splitN2Slash p).1 = []
  · simp [h1]
  · rw [if_neg h1]
    rw [List.isPrefixOf_iff_prefix]
    exact ⟨_, splitN2Slash_recover p⟩

theorem extract_pathStyle_bucket (pd up hh : Str)
    (hs : (extractBucketAndKeyStyle pd up hh).2.2 = Style.pathStyle) :
    (extractBucketAndKeyStyle pd up hh).1 =
      (pathStyleParse (trimPrefixGo up ['/'])).1 := by
  unfold extractBucketAndKeyStyle at hs ⊢
  dsimp only at hs ⊢
  split_ifs at hs ⊢ <;> simp_all

theorem trimPrefixGo_slash_cons (r : Str) : trimPrefixGo ('/' :: r) ['/'] = r := by
  simp [trimPrefixGo, List.isPrefixOf]

/-- C1 counterexample: with `PROXY_DOMAIN=s3.local`, the request
`Host: b.s3.local`, path `/b/x` is classified virtual-hosted with bucket `b`,
yet because the path begins with `/b` the dispatcher re-derives path-style and
forwards to the bare primary host, so the claimed style preservation fails. -/
theorem claim_C1_counterexample :
    ¬ c1StyleClaim "s3.amazonaws.com".data "s3.local".data "b.s3.local".data
      "/b/x".data := by
  unfold c1StyleClaim
  dsimp only
  decide

/-- C1 amended: the dispatcher re-derives the style from
`bucket ≠ "" && !HasPrefix(path, "/"+bucket)` rather than from the parser
classification.  Consequently, a request classified virtual-hosted is
forwarded to `bucket + "." + primary-host` with the path verbatim only when
its bucket is non-empty and its path does not begin with `"/" + bucket`; a
request classified path-style whose path begins with `"/"` is forwarded to the
primary host with the path verbatim, and that path begins with
`"/" + bucket`. -/
theorem claim_C1_amended (targetHost proxyDomain hostHeader urlPath : Str) :
    ((extractBucketAndKeyStyle proxyDomain urlPath hostHeader).2.2 =
        Style.virtualHosted →
      (extractBucketAndKeyStyle proxyDomain urlPath hostHeader).1 ≠ [] →
      ('/' :: (extractBucketAndKeyStyle proxyDomain urlPath hostHeader).1).isPrefixOf
          urlPath = false →
      forwardHostPath targetHost proxyDomain hostHeader urlPath =
        ((extractBucketAndKeyStyle proxyDomain urlPath hostHeader).1 ++
          '.' :: targetHost, urlPath)) ∧
    ((extractBucketAndKeyStyle proxyDomain urlPath hostHeader).2.2 =
        Style.pathStyle →
      ['/'].isPrefixOf urlPath = true →
      ('/' :: (extractBucketAndKeyStyle proxyDomain urlPath hostHeader).1).isPrefixOf
          urlPath = true ∧
      forwardHostPath targetHost proxyDomain hostHeader urlPath =
        (targetHost, urlPath)) := by
  constructor
  · intro hvh hb hpre
    unfold forwardHostPath extractBucketAndKey dispatchIsVirtualHosted
    dsimp only
    have h1 : (extractBucketAndKeyStyle proxyDomain urlPath hostHeader).1.isEmpty =
        false := by
      simpa [List.isEmpty_iff] using hb
    rw [h1, hpre]
    simp
  · intro hps hsl
    obtain ⟨rest, rfl⟩ : ∃ r, urlPath = '/' :: r := by
      cases urlPath with
      | nil => simp [List.isPrefixOf] at hsl
      | cons c r =>
        have hc : c = '/' := by
          by_contra hne
          simp [List.isPrefixOf, Ne.symm hne] at hsl
        exact ⟨r, by rw [hc]⟩
    have hbk := extract_pathStyle_bucket proxyDomain ('/' :: rest) hostHeader hps
    have hpref :
        ((extractBucketAndKeyStyle proxyDomain ('/' :: rest) hostHeader).1).isPrefixOf
          rest = true := by
      rw [hbk, trimPrefixGo_slash_cons]
      exact pathStyleParse_isPrefix rest
    have hcons :
        (('/' :: (extractBucketAndKeyStyle proxyDomain ('/' :: rest) hostHeader).1).isPrefixOf
          ('/' :: rest)) = true := by
      simpa [List.isPrefixOf] using hpref
    refine ⟨hcons, ?_⟩
    unfold forwardHostPath extractBucketAndKey dispatchIsVirtualHosted
    dsimp only
    rw [hcons]
    simp

theorem claim_C1_amended_witness :
    forwardHostPath "p.example".data "s3.local".data "b.s3.local".data "/x".data =
      ("b.p.example".data, "/x".data) := by
  have h := (claim_C1_amended "p.example".data "s3.local".data "b.s3.local".data
    "/x".data).1 (by decide) (by decide) (by decide)
  exact h.trans (by decide)

/-- C2 counterexample: with `proxy_domain = s3.local` and host `xs3.local`
(which ends with `s3.local` but not with `.s3.local`), the code keeps the
whole host as the bucket, while the claimed four-step classification yields
bucket `xs3` by the two-label rule; moreover with no proxy domain, host `a.b`
and an empty path, the code falls through to path-style with no bucket while
the claimed step 3 yields virtual-hosted with bucket `a`. -/
theorem claim_C2_counterexample :
    extractBucketAndKeyStyle "s3.local".data "/k".data "xs3.local".data =
      ("xs3.local".data, "k".data, Style.virtualHosted) ∧
    specClassify "s3.local".data "/k".data "xs3.local".data =
      ("xs3".data, "k".data, Style.virtualHosted) ∧
    extractBucketAndKeyStyle "s3.local".data "/k".data "xs3.local".data ≠
      specClassify "s3.local".data "/k".data "xs3.local".data ∧
    extractBucketAndKeyStyle [] [] "a.b".data = ([], [], Style.pathStyle) ∧
    specClassify [] [] "a.b".data = ("a".data, [], Style.virtualHosted) := by
  decide

/-- C2 amended: the parser follows the four-step classification with two
changes matching the code: step 2 fires when the host ends with
`proxy_domain` while differing from it (removing a `"." + proxy_domain`
suffix only when present, else keeping the whole host as the bucket), and
step 3 yields virtual-hosted only when the first label is non-empty and the
derived key is non-empty or the path is exactly `"/"`, otherwise falling
through to path-style. -/
theorem claim_C2_amended (pd up hh : Str) :
    extractBucketAndKeyStyle pd up hh = specClassifyAmended pd up hh := by
  have hrefl : ∀ l : Str, l.isSuffixOf l = true := fun l => by
    rw [List.isSuffixOf_iff_suffix]
  unfold extractBucketAndKeyStyle specClassifyAmended
  dsimp only
  split_ifs <;>
    first
      | rfl
      | tauto
      | simp_all [hrefl]

/-- C4 counterexample: on the query parameter `k = "a b"`, the code escapes
the space as `+` (Go `url.QueryEscape`), while the claimed unreserved-set
percent-encoding produces `%20`. -/
theorem claim_C4_counterexample :
    createCanonicalQueryString [("k".data, ["a b".data])] = "k=a+b".data ∧
    specCanonicalQueryString awsUriEncode [("k".data, ["a b".data])] =
      "k=a%20b".data ∧
    createCanonicalQueryString [("k".data, ["a b".data])] ≠
      specCanonicalQueryString awsUriEncode [("k".data, ["a b".data])] := by
  decide

theorem flatMap_perm_congr {α β : Type} (l : List α) (f g : α → List β)
    (h : ∀ a ∈ l, (f a).Perm (g a)) : (l.flatMap f).Perm (l.flatMap g) := by
  induction l with
  | nil => exact List.Perm.refl _
  | cons a t ih =>
    simp only [List.flatMap_cons]
    exact (h a (by simp)).append (ih (fun b hb => h b (by simp [hb])))

theorem flatMap_congr_fun {α β : Type} (l : List α) (f g : α → List β)
    (h : ∀ a ∈ l, f a = g a) : l.flatMap f = l.flatMap g := by
  induction l with
  | nil => rfl
  | cons a t ih =>
    simp only [List.flatMap_cons, h a (by simp),
      ih (fun b hb => h b (by simp [hb]))]

theorem lookup_grouped_flatMap (values : List (Str × List Str))
    (hnd : (values.map Prod.fst).Nodup) :
    (values.map Prod.fst).flatMap (fun k =>
      ((List.lookup k values).getD []).map (fun v => (k, v))) =
    values.flatMap (fun kv => kv.2.map (fun v => (kv.1, v))) := by
  induction values with
  | nil => rfl
  | cons kv rest ih =>
    obtain ⟨k0, vs0⟩ := kv
    simp only [List.map_cons, List.flatMap_cons]
    have hnotin : k0 ∉ rest.map Prod.fst := (List.nodup_cons.mp hnd).1
    have hnd2 : (rest.map Prod.fst).Nodup := (List.nodup_cons.mp hnd).2
    congr 1
    · simp [List.lookup]
    · rw [← ih hnd2]
      apply flatMap_congr_fun
      intro k hk
      have hne : (k == k0) = false := by
        have hne2 : k ≠ k0 := fun e => hnotin (by rw [← e]; exact hk)
        simpa using hne2
      rw [List.lookup, hne]

theorem grouped_pairs_sorted (values : List (Str × List Str))
    (hnd : (values.map Prod.fst).Nodup) :
    List.Pairwise pairLe ((sortStrs (values.map Prod.fst)).flatMap (fun k =>
      (sortStrs ((List.lookup k values).getD [])).map (fun v => (k, v)))) := by
  unfold sortStrs
  rw [List.flatMap_def]
  apply List.pairwise_flatten.mpr
  constructor
  · intro l hl
    rw [List.mem_map] at hl
    obtain ⟨k, hk, rfl⟩ := hl
    rw [List.pairwise_map]
    have hs := List.sorted_insertionSort (α := Str) (· ≤ ·)
      ((List.lookup k values).getD [])
    exact hs.imp (fun h => Or.inr ⟨rfl, h⟩)
  · rw [List.pairwise_map]
    have hsorted := List.sorted_insertionSort (α := Str) (· ≤ ·) (values.map Prod.fst)
    have hnodup : (List.insertionSort (· ≤ ·) (values.map Prod.fst)).Nodup :=
      (List.perm_insertionSort _ _).nodup_iff.mpr hnd
    have hlt : List.Pairwise (· < ·) (List.insertionSort (· ≤ ·) (values.map Prod.fst)) :=
      (hsorted.and hnodup).imp (fun h => lt_of_le_of_ne h.1 h.2)
    refine hlt.imp ?_
    intro k1 k2 h x hx y hy
    rw [List.mem_map] at hx hy
    obtain ⟨v1, _, rfl⟩ := hx
    obtain ⟨v2, _, rfl⟩ := hy
    exact Or.inl h

theorem insertionSort_pairs_grouped (values : List (Str × List Str))
    (hnd : (values.map Prod.fst).Nodup) :
    List.insertionSort pairLe
      (values.flatMap (fun kv => kv.2.map (fun v => (kv.1, v)))) =
    (sortStrs (values.map Prod.fst)).flatMap (fun k =>
      (sortStrs ((List.lookup k values).getD [])).map (fun v => (k, v))) := by
  refine List.eq_of_perm_of_sorted ?_ (List.sorted_insertionSort pairLe _)
    (grouped_pairs_sorted values hnd)
  refine (List.perm_insertionSort pairLe _).trans ?_
  refine List.Perm.symm ?_
  have hA : ((sortStrs (values.map Prod.fst)).flatMap (fun k =>
      (sortStrs ((List.lookup k values).getD [])).map (fun v => (k, v)))).Perm
      ((values.map Prod.fst).flatMap (fun k =>
        (sortStrs ((List.lookup k values).getD [])).map (fun v => (k, v)))) := by
    rw [List.flatMap_def, List.flatMap_def]
    exact ((List.perm_insertionSort _ _).map _).flatten
  refine hA.trans ?_
  have hB : ((values.map Prod.fst).flatMap (fun k =>
      (sortStrs ((List.lookup k values).getD [])).map (fun v => (k, v)))).Perm
      ((values.map Prod.fst).flatMap (fun k =>
        ((List.lookup k values).getD []).map (fun v => (k, v)))) := by
    apply flatMap_perm_congr
    intro k hk
    exact (List.perm_insertionSort _ _).map _
  refine hB.trans ?_
  rw [lookup_grouped_flatMap values hnd]

/-- C4 amended: the canonical query string lists parameters sorted by name in
byte order with values sorted within a repeated key and `name=` for empty
values, but each name and value is escaped with Go `url.QueryEscape`, which
differs from the claimed unreserved-set rules in encoding the space character
as `+` rather than `%20`. -/
theorem claim_C4_amended (values : List (Str × List Str))
    (hnd : (values.map Prod.fst).Nodup) :
    createCanonicalQueryString values =
      specCanonicalQueryString queryEscape values := by
  cases values with
  | nil => rfl
  | cons kv rest =>
    unfold createCanonicalQueryString specCanonicalQueryString
    dsimp only
    rw [if_neg (by simp), insertionSort_pairs_grouped _ hnd]
    congr 1
    rw [List.map_flatMap]
    apply flatMap_congr_fun
    intro k hk
    rw [List.map_map]
    apply List.map_congr_left
    intro v hv
    cases v with
    | nil => simp [queryEscape]
    | cons a t => rfl

theorem claim_C4_amended_witness :
    createCanonicalQueryString
        [("b".data, ["2".data, "1".data]), ("a".data, ["x y".data])] =
      specCanonicalQueryString queryEscape
        [("b".data, ["2".data, "1".data]), ("a".data, ["x y".data])] :=
  claim_C4_amended _ (by decide)
